import Mathlib

set_option maxRecDepth 100000

/-!
Verification development for the fcache repository (github.com/osmike/fcache),
a generic memoizing function cache with TTL + LRU storage, single-flight
deduplication and lifecycle hooks.

The Go sources are shallowly embedded as executable Lean definitions:

* `Fcache.Keygen`   — internal/lib/keygen (BuildKey, encodeValue, encodeString,
  encodeComplex, shouldHashData, hashBytes), together with a byte-level model
  of `crypto/sha256` and of `encoding/json.Marshal` for the value shapes the
  key generator dispatches on.
* `Fcache.Core`     — internal/core/storage.go (Storage, Get/Set/Delete,
  deleteProxy, the sweeper stop-signal bookkeeping) as a functional state
  machine with an explicit clock.
* `Fcache.Facade`   — internal/core/cache.go `cache.call` as a sequential
  big-step function over the storage state, the in-flight key set, the user
  function's behaviour and the hook behaviours, recording the observable
  events (hook invocations, LogError calls, invocations of `f`).
* `Fcache.Flight`   — the single-flight coordinator of `cache.call` as a
  small-step interleaving model for N goroutines calling with one common key,
  used for the concurrency claims.

Machine integers are modelled as `Nat` with explicit `% 2^32` where Go's
`uint32` arithmetic wraps (SHA-256); times and durations are `Nat`
nanoseconds; Go's `(value, error)` pairs are modelled with `Option`/`Except`.
-/

namespace Fcache

/-! ## Go error values (internal/lib/errs)

`errs.NewError(errType, fields)` produces an error wrapping `errType` with a
formatted detail string.  Claims only ever distinguish the sentinel class and
the wrapped cause, so errors are modelled structurally: `errPanic p` stands
for `errs.NewError(ErrPanic, {panic: p})`, `errBuildKey c` for
`errs.NewError(ErrBuildKey, {..., error: c})`, and `errMarshallJSON` for
`errs.NewError(ErrMarshallJSON, {...})` (whose JSON-level cause no claim
inspects).  `str s` stands for an opaque user error or a panic payload
converted by `toError`. -/
inductive GoErr where
  | str (s : String)
  | errPanic (p : GoErr)
  | errBuildKey (cause : GoErr)
  | errMarshallJSON
deriving DecidableEq

deriving instance DecidableEq for Except

namespace Keygen

/-! ## SHA-256 (crypto/sha256), over `Nat` bytes and 32-bit words -/

/-- Reduce modulo 2^32, Go `uint32` wrap-around. -/
def w32 (n : Nat) : Nat := n % 4294967296

/-- Rotate a 32-bit word right by `k`. -/
def rotr32 (x k : Nat) : Nat := w32 ((x >>> k) ||| (x <<< (32 - k)))

def ch32 (e f g : Nat) : Nat := (e &&& f) ^^^ ((e ^^^ 4294967295) &&& g)

def maj32 (a b c : Nat) : Nat := (a &&& b) ^^^ (a &&& c) ^^^ (b &&& c)

def bsig0 (x : Nat) : Nat := rotr32 x 2 ^^^ rotr32 x 13 ^^^ rotr32 x 22

def bsig1 (x : Nat) : Nat := rotr32 x 6 ^^^ rotr32 x 11 ^^^ rotr32 x 25

def ssig0 (x : Nat) : Nat := rotr32 x 7 ^^^ rotr32 x 18 ^^^ (x >>> 3)

def ssig1 (x : Nat) : Nat := rotr32 x 17 ^^^ rotr32 x 19 ^^^ (x >>> 10)

/-- The 64 SHA-256 round constants (FIPS 180-4, in decimal). -/
def sha256K : List Nat :=
  [1116352408, 1899447441, 3049323471, 3921009573,
   961987163, 1508970993, 2453635748, 2870763221,
   3624381080, 310598401, 607225278, 1426881987,
   1925078388, 2162078206, 2614888103, 3248222580,
   3835390401, 4022224774, 264347078, 604807628,
   770255983, 1249150122, 1555081692, 1996064986,
   2554220882, 2821834349, 2952996808, 3210313671,
   3336571891, 3584528711, 113926993, 338241895,
   666307205, 773529912, 1294757372, 1396182291,
   1695183700, 1986661051, 2177026350, 2456956037,
   2730485921, 2820302411, 3259730800, 3345764771,
   3516065817, 3600352804, 4094571909, 275423344,
   430227734, 506948616, 659060556, 883997877,
   958139571, 1322822218, 1537002063, 1747873779,
   1955562222, 2024104815, 2227730452, 2361852424,
   2428436474, 2756734187, 3204031479, 3329325298]

/-- The eight SHA-256 working registers / hash words. -/
structure Regs where
  a : Nat
  b : Nat
  c : Nat
  d : Nat
  e : Nat
  f : Nat
  g : Nat
  h : Nat
deriving DecidableEq

def sha256Init : Regs :=
  ⟨1779033703, 3144134277, 1013904242, 2773480762,
   1359893119, 2600822924, 528734635, 1541459225⟩

/-- One compression round. -/
def sha256Round (r : Regs) (k w : Nat) : Regs :=
  let t1 := w32 (r.h + bsig1 r.e + ch32 r.e r.f r.g + k + w)
  let t2 := w32 (bsig0 r.a + maj32 r.a r.b r.c)
  ⟨w32 (t1 + t2), r.a, r.b, r.c, w32 (r.d + t1), r.e, r.f, r.g⟩

/-- Group a byte list into big-endian 32-bit words. -/
def bytesToWords : List Nat → List Nat
  | b0 :: b1 :: b2 :: b3 :: rest =>
      (b0 * 16777216 + b1 * 65536 + b2 * 256 + b3) :: bytesToWords rest
  | _ => []

/-- Extend the 16-word message schedule by `n` further words. -/
def extendSched : Nat → List Nat → List Nat
  | 0, w => w
  | n + 1, w =>
      let i := w.length
      let wi := w32 (w.getD (i - 16) 0 + ssig0 (w.getD (i - 15) 0) +
                     w.getD (i - 7) 0 + ssig1 (w.getD (i - 2) 0))
      extendSched n (w ++ [wi])

/-- Compress one 64-byte chunk into the running hash state. -/
def processChunk (H : Regs) (chunk : List Nat) : Regs :=
  let w := extendSched 48 (bytesToWords chunk)
  let r := (sha256K.zip w).foldl (fun r kw => sha256Round r kw.1 kw.2) H
  ⟨w32 (H.a + r.a), w32 (H.b + r.b), w32 (H.c + r.c), w32 (H.d + r.d),
   w32 (H.e + r.e), w32 (H.f + r.f), w32 (H.g + r.g), w32 (H.h + r.h)⟩

/-- Split a byte list into 64-byte chunks (the input length is a multiple
of 64 after padding). -/
def chunk64 : List Nat → List Nat → List (List Nat)
  | [], acc => if acc = [] then [] else [acc.reverse]
  | b :: rest, acc =>
      let acc := b :: acc
      if acc.length = 64 then acc.reverse :: chunk64 rest []
      else chunk64 rest acc

/-- Big-endian 8-byte encoding of a length in bits. -/
def lenBytes8 (n : Nat) : List Nat :=
  [n >>> 56 % 256, n >>> 48 % 256, n >>> 40 % 256, n >>> 32 % 256,
   n >>> 24 % 256, n >>> 16 % 256, n >>> 8 % 256, n % 256]

/-- SHA-256 padding: 0x80, zero bytes to 56 mod 64, 8-byte bit length. -/
def sha256Pad (msg : List Nat) : List Nat :=
  let len := msg.length
  msg ++ 0x80 :: List.replicate ((119 - len % 64) % 64) 0 ++ lenBytes8 (len * 8)

/-- Big-endian bytes of a 32-bit word. -/
def wordBE (w : Nat) : List Nat := [w >>> 24 % 256, w >>> 16 % 256, w >>> 8 % 256, w % 256]

/-- The 32 digest bytes of SHA-256 of a byte list. -/
def sha256Bytes (msg : List Nat) : List Nat :=
  let H := (chunk64 (sha256Pad msg) []).foldl processChunk sha256Init
  wordBE H.a ++ wordBE H.b ++ wordBE H.c ++ wordBE H.d ++
  wordBE H.e ++ wordBE H.f ++ wordBE H.g ++ wordBE H.h

/-! ## Hex encoding (encoding/hex.EncodeToString) -/

def hexChars : List Char := "0123456789abcdef".data

def hexDigit (n : Nat) : Char := hexChars.getD n '0'

def byteHex (b : Nat) : List Char := [hexDigit (b / 16), hexDigit (b % 16)]

/-- hashBytes hashes the byte slice using SHA-256 and returns the hex string
(keygen.hashBytes). -/
def hashBytes (data : List Nat) : String := ⟨(sha256Bytes data).flatMap byteHex⟩

/-! ## Go strings as UTF-8 byte sequences

Go `len(s)` and `[]byte(s)` work on the UTF-8 encoding of `s`. -/

/-- UTF-8 encoding of one character. -/
def utf8Bytes (c : Char) : List Nat :=
  let n := c.toNat
  if n < 128 then [n]
  else if n < 2048 then [192 ||| (n >>> 6), 128 ||| (n &&& 63)]
  else if n < 65536 then
    [224 ||| (n >>> 12), 128 ||| ((n >>> 6) &&& 63), 128 ||| (n &&& 63)]
  else
    [240 ||| (n >>> 18), 128 ||| ((n >>> 12) &&& 63),
     128 ||| ((n >>> 6) &&& 63), 128 ||| (n &&& 63)]

/-- The bytes of a Go string: `[]byte(s)`. -/
def strBytes (s : String) : List Nat := s.data.flatMap utf8Bytes

/-- Go `len(s)`: the UTF-8 byte length. -/
def goLen (s : String) : Nat := (strBytes s).length

/-- hashBytes([]byte(s)). -/
def hashString (s : String) : String := hashBytes (strBytes s)

/-- Sanity check of the SHA-256 model against the standard test vector. -/
example : hashString "abc" =
    "ba7816bf8f01cfea414140de5dae2223b00361a396177a9cb410ff61f20015ad" := by decide

/-- Sanity check: digest of the empty message. -/
example : hashString "" =
    "e3b0c44298fc1c149afbf4c8996fb92427ae41e4649b934ca495991b7852b855" := by decide

/-! ## encoding/json.Marshal for the value shapes keygen dispatches on

`json.Marshal` renders Go maps with their keys sorted as strings, escapes
`"`, `\\`, control characters and (by default) `<`, `>`, `&`, and fails on
non-serialisable values such as functions and channels.  Composite elements
are modelled as JSON scalars (the shapes exercised by the repository's spec
and tests); Go's floating-point rendering is out of scope and has no
constructor. -/

/-- One escaped character of a JSON string literal. -/
def escChar (c : Char) : List Char :=
  if c = '"' then ['\\', '"']
  else if c = '\\' then ['\\', '\\']
  else if c = '\n' then ['\\', 'n']
  else if c = '\r' then ['\\', 'r']
  else if c = '\t' then ['\\', 't']
  else if c = '<' then ['\\', 'u', '0', '0', '3', 'c']
  else if c = '>' then ['\\', 'u', '0', '0', '3', 'e']
  else if c = '&' then ['\\', 'u', '0', '0', '2', '6']
  else if c.toNat < 32 then ['\\', 'u', '0', '0', hexDigit (c.toNat / 16), hexDigit (c.toNat % 16)]
  else if c.toNat = 8232 then ['\\', 'u', '2', '0', '2', '8']
  else if c.toNat = 8233 then ['\\', 'u', '2', '0', '2', '9']
  else [c]

/-- A JSON string literal for `s`. -/
def jsonQuote (s : String) : String := ⟨'"' :: (s.data.flatMap escChar ++ ['"'])⟩

/-- A JSON scalar: the element shapes appearing inside the composite
arguments that the claims and the repository's tests exercise. -/
inductive JVal where
  | jnull
  | jint (n : Int)
  | jbool (b : Bool)
  | jstr (s : String)
deriving DecidableEq

/-- Render one JSON scalar. -/
def renderJ : JVal → String
  | .jnull => "null"
  | .jint n => toString n
  | .jbool b => if b then "true" else "false"
  | .jstr s => jsonQuote s

def commaJoin : List String → String
  | [] => ""
  | [x] => x
  | x :: rest => x ++ "," ++ commaJoin rest

/-- First binding of `key` in an association list (a Go map lookup). -/
def lookupA {α : Type u} : List (String × α) → String → Option α
  | [], _ => none
  | (k, v) :: rest, key => if k = key then some v else lookupA rest key

/-- Lexicographic order on character sequences; on UTF-8 data this is the
byte order Go string comparison uses. -/
def charsLe : List Char → List Char → Bool
  | [], _ => true
  | _ :: _, [] => false
  | x :: xs, y :: ys =>
    if x.toNat < y.toNat then true
    else if y.toNat < x.toNat then false
    else charsLe xs ys

/-- Go string comparison `a <= b`. -/
def strLeB (a b : String) : Bool := charsLe a.data b.data

/-- The sort relation used for JSON object keys. -/
def keyLe (a b : String) : Prop := strLeB a b = true

instance : DecidableRel keyLe := fun a b => instDecidableEqBool (strLeB a b) true

/-- Render a JSON object: `encoding/json` sorts the map keys as strings and
emits `m[k]` for each key in sorted order.  The `getD ""` default is never
reached for keys drawn from the list itself. -/
def jsonObj (pairs : List (String × String)) : String :=
  let ks := List.insertionSort keyLe (pairs.map Prod.fst)
  "\x7b" ++ commaJoin (ks.map (fun k => jsonQuote k ++ ":" ++ (lookupA pairs k).getD "")) ++ "\x7d"

/-- A runtime Go value as dispatched on by `keygen.encodeValue`.

`vmapIface` is `map[string]interface\x7b\x7d` — the only map type matched by
name in `encodeComplex` — while `vmapInt` stands for a string-keyed map of
any other element type (`map[string]int` in the repository's tests).
`vstringer` is a value implementing `fmt.Stringer`, carrying the text its
`String()` method returns.  `vfunc` is a value `json.Marshal` rejects (a
function or channel).  Floating-point numbers are outside the model. -/
inductive GoVal where
  | vnil
  | vctx
  | vint (n : Int)
  | vbool (b : Bool)
  | vstr (s : String)
  | vstringer (s : String)
  | vslice (xs : List JVal)
  | vmapIface (es : List (String × JVal))
  | vmapInt (es : List (String × Int))
  | vfunc
deriving DecidableEq

/-- json.Marshal.  `vctx` stands for `context.Background()`, whose concrete
struct has no exported fields and marshals to an empty object; `vstringer`
values are struct-typed and likewise modelled as an empty object (neither is
reachable from `encodeValue`, which intercepts contexts and Stringers before
`encodeComplex`). -/
def jsonMarshal : GoVal → Option String
  | .vnil => some "null"
  | .vctx => some "\x7b\x7d"
  | .vint n => some (toString n)
  | .vbool b => some (if b then "true" else "false")
  | .vstr s => some (jsonQuote s)
  | .vstringer _ => some "\x7b\x7d"
  | .vslice xs => some ("[" ++ commaJoin (xs.map renderJ) ++ "]")
  | .vmapIface es => some (jsonObj (es.map (fun p => (p.1, renderJ p.2))))
  | .vmapInt es => some (jsonObj (es.map (fun p => (p.1, toString p.2))))
  | .vfunc => none

/-! ## internal/lib/keygen -/

/-- Maximum length for string keys before hashing. -/
def maxLen : Nat := 100

/-- shouldHashData returns true if the JSON representation of a value is too
long for a cache key (`len(data) > maxLen` on the marshalled bytes). -/
def shouldHashData (data : String) : Bool := goLen data > maxLen

/-- encodeString encodes a string value for use as a cache key: hash it when
it exceeds maxLen bytes, otherwise return it as is. -/
def encodeString (s : String) : Except GoErr String :=
  if goLen s > maxLen then .ok (hashString s) else .ok s

/-- encodeComplex encodes complex types (slices, maps, structs): marshal to
JSON; `map[string]interface\x7b\x7d` is always hashed; anything else is
hashed only when the JSON is longer than maxLen bytes. -/
def encodeComplex (v : GoVal) : Except GoErr String :=
  match jsonMarshal v with
  | none => .error .errMarshallJSON
  | some data =>
    match v with
    | .vmapIface _ => .ok (hashString data)
    | _ => if shouldHashData data then .ok (hashString data) else .ok data

/-- encodeValue encodes a single value into a string suitable for use as a
cache key, dispatching on the runtime shape exactly as the Go type switch
does. -/
def encodeValue : GoVal → Except GoErr String
  | .vnil => .ok "nil"
  | .vctx => .ok "context"
  | .vint n => .ok (toString n)
  | .vbool b => .ok ("b:" ++ if b then "true" else "false")
  | .vstr s => encodeString ("s:" ++ s)
  | .vstringer s => encodeString ("s:" ++ s)
  | v => encodeComplex v

/-- BuildKey returns a deterministic string key for caching based on the
provided value, hashing encodings longer than maxLen bytes. -/
def BuildKey (value : GoVal) : Except GoErr String :=
  match encodeValue value with
  | .error err => .error (.errBuildKey err)
  | .ok encoded =>
    if goLen encoded > maxLen then .ok (hashString encoded) else .ok encoded

/-! ## Supporting lemmas about the hash and the key order -/

theorem sha256Bytes_length (msg : List Nat) : (sha256Bytes msg).length = 32 := rfl

theorem byteHex_length (b : Nat) : (byteHex b).length = 2 := rfl

theorem flatMap_byteHex_length (l : List Nat) : (l.flatMap byteHex).length = 2 * l.length := by
  induction l with
  | nil => rfl
  | cons b rest ih => simp [List.flatMap_cons, ih, byteHex_length]; omega

theorem hexDigit_toNat_lt (n : Nat) : (hexDigit n).toNat < 128 := by
  unfold hexDigit
  rcases Nat.lt_or_ge n 16 with h | h
  · interval_cases n <;> decide
  · rw [List.getD_eq_default]
    · decide
    · exact h

theorem mem_byteHex_toNat_lt {c : Char} {b : Nat} (h : c ∈ byteHex b) : c.toNat < 128 := by
  simp only [byteHex, List.mem_cons, List.mem_singleton, List.not_mem_nil, or_false] at h
  rcases h with h | h <;> subst h <;> exact hexDigit_toNat_lt _

theorem utf8Bytes_ascii {c : Char} (h : c.toNat < 128) : utf8Bytes c = [c.toNat] := by
  unfold utf8Bytes
  simp [h]

theorem flatMap_utf8_ascii_length (l : List Char) (h : ∀ c ∈ l, c.toNat < 128) :
    (l.flatMap utf8Bytes).length = l.length := by
  induction l with
  | nil => rfl
  | cons c rest ih =>
    have hc : c.toNat < 128 := h c (List.mem_cons_self c rest)
    simp [List.flatMap_cons, utf8Bytes_ascii hc,
      ih (fun d hd => h d (List.mem_cons_of_mem c hd))]

theorem goLen_hashBytes (data : List Nat) : goLen (hashBytes data) = 64 := by
  have hmem : ∀ c ∈ (sha256Bytes data).flatMap byteHex, c.toNat < 128 := by
    intro c hc
    rcases List.mem_flatMap.mp hc with ⟨b, _, hb⟩
    exact mem_byteHex_toNat_lt hb
  show ((hashBytes data).data.flatMap utf8Bytes).length = 64
  have hdata : (hashBytes data).data = (sha256Bytes data).flatMap byteHex := rfl
  rw [hdata, flatMap_utf8_ascii_length _ hmem, flatMap_byteHex_length,
    sha256Bytes_length]

theorem goLen_hashString (s : String) : goLen (hashString s) = 64 :=
  goLen_hashBytes _

/-! ## The key order is a total, transitive, antisymmetric order -/

theorem charsLe_cons_iff {x y : Char} {xs ys : List Char} :
    charsLe (x :: xs) (y :: ys) = true ↔
      x.toNat < y.toNat ∨ (x.toNat = y.toNat ∧ charsLe xs ys = true) := by
  simp only [charsLe]
  rcases Nat.lt_trichotomy x.toNat y.toNat with h | h | h
  · simp [h]
  · have h1 : ¬ x.toNat < y.toNat := by omega
    have h2 : ¬ y.toNat < x.toNat := by omega
    simp [h1, h2, h]
  · have h1 : ¬ x.toNat < y.toNat := by omega
    have h2 : x.toNat ≠ y.toNat := by omega
    simp [h1, h, h2]

theorem charsLe_total : ∀ a b : List Char, charsLe a b = true ∨ charsLe b a = true := by
  intro a
  induction a with
  | nil => intro b; left; rfl
  | cons x xs ih =>
    intro b
    cases b with
    | nil => right; rfl
    | cons y ys =>
      rw [charsLe_cons_iff, charsLe_cons_iff]
      rcases Nat.lt_trichotomy x.toNat y.toNat with h | h | h
      · left; left; exact h
      · rcases ih ys with h2 | h2
        · left; right; exact ⟨h, h2⟩
        · right; right; exact ⟨h.symm, h2⟩
      · right; left; exact h

theorem charsLe_trans : ∀ a b c : List Char,
    charsLe a b = true → charsLe b c = true → charsLe a c = true := by
  intro a
  induction a with
  | nil => intro b c _ _; rfl
  | cons x xs ih =>
    intro b c hab hbc
    cases b with
    | nil => simp [charsLe] at hab
    | cons y ys =>
      cases c with
      | nil => simp [charsLe] at hbc
      | cons z zs =>
        rw [charsLe_cons_iff] at hab hbc ⊢
        rcases hab with h1 | ⟨h1, hab⟩ <;> rcases hbc with h2 | ⟨h2, hbc⟩
        · left; omega
        · left; omega
        · left; omega
        · right; exact ⟨by omega, ih ys zs hab hbc⟩

theorem charsLe_antisymm : ∀ a b : List Char,
    charsLe a b = true → charsLe b a = true → a = b := by
  intro a
  induction a with
  | nil =>
    intro b _ hba
    cases b with
    | nil => rfl
    | cons y ys => simp [charsLe] at hba
  | cons x xs ih =>
    intro b hab hba
    cases b with
    | nil => simp [charsLe] at hab
    | cons y ys =>
      rw [charsLe_cons_iff] at hab hba
      rcases hab with h1 | ⟨h1, hab⟩
      · rcases hba with h2 | ⟨h2, _⟩ <;> omega
      · rcases hba with h2 | ⟨h2, hba⟩
        · omega
        · have hxy : x = y := Char.eq_of_val_eq (UInt32.ext h1)
          rw [hxy, ih ys hab hba]

instance : IsTotal String keyLe :=
  ⟨fun a b => by
    rcases charsLe_total a.data b.data with h | h
    · exact Or.inl h
    · exact Or.inr h⟩

instance : IsTrans String keyLe :=
  ⟨fun a b c hab hbc => charsLe_trans a.data b.data c.data hab hbc⟩

instance : IsAntisymm String keyLe :=
  ⟨fun a b hab hba => by
    have h := charsLe_antisymm a.data b.data hab hba
    cases a; cases b; exact congrArg String.mk h⟩

/-! ## Association-list lookups are invariant under permutation -/

theorem lookupA_perm {α : Type u} {l₁ l₂ : List (String × α)} (h : l₁.Perm l₂)
    (nd : (l₁.map Prod.fst).Nodup) (k : String) : lookupA l₁ k = lookupA l₂ k := by
  induction h with
  | nil => rfl
  | cons x h ih =>
    simp only [List.map_cons, List.nodup_cons] at nd
    simp only [lookupA]
    split
    · rfl
    · exact ih nd.2
  | swap x y l =>
    simp only [List.map_cons, List.nodup_cons, List.mem_cons, not_or] at nd
    have hne : y.1 ≠ x.1 := nd.1.1
    by_cases h1 : y.1 = k
    · by_cases h2 : x.1 = k
      · exact absurd (h1.trans h2.symm) hne
      · simp [lookupA, h1, h2]
    · by_cases h2 : x.1 = k <;> simp [lookupA, h1, h2]
  | trans h₁ h₂ ih₁ ih₂ =>
    exact (ih₁ nd).trans (ih₂ (((h₁.map Prod.fst).nodup_iff).mp nd))

/-- Rendering a JSON object is invariant under permuting the bindings, as
long as the keys are distinct (which Go maps guarantee): the key sort
normalises the order. -/
theorem jsonObj_perm {pairs₁ pairs₂ : List (String × String)} (h : pairs₁.Perm pairs₂)
    (nd : (pairs₁.map Prod.fst).Nodup) : jsonObj pairs₁ = jsonObj pairs₂ := by
  unfold jsonObj
  have hk : (pairs₁.map Prod.fst).Perm (pairs₂.map Prod.fst) := h.map Prod.fst
  have hperm : (List.insertionSort keyLe (pairs₁.map Prod.fst)).Perm
      (List.insertionSort keyLe (pairs₂.map Prod.fst)) :=
    (List.perm_insertionSort keyLe _).trans (hk.trans (List.perm_insertionSort keyLe _).symm)
  have hsort : List.insertionSort keyLe (pairs₁.map Prod.fst) =
      List.insertionSort keyLe (pairs₂.map Prod.fst) :=
    List.eq_of_perm_of_sorted hperm (List.sorted_insertionSort keyLe _)
      (List.sorted_insertionSort keyLe _)
  have hf : (fun k => jsonQuote k ++ ":" ++ (lookupA pairs₁ k).getD "") =
      (fun k => jsonQuote k ++ ":" ++ (lookupA pairs₂ k).getD "") :=
    funext fun k => by rw [lookupA_perm h nd k]
  rw [hsort, hf]

/-! ## Shapes of BuildKey on string-keyed maps -/

theorem encodeValue_vmapIface (es : List (String × JVal)) :
    encodeValue (.vmapIface es) =
      .ok (hashString (jsonObj (es.map fun p => (p.1, renderJ p.2)))) := rfl

theorem buildKey_vmapIface (es : List (String × JVal)) :
    BuildKey (.vmapIface es) =
      .ok (hashString (jsonObj (es.map fun p => (p.1, renderJ p.2)))) := by
  have h64 : goLen (hashString (jsonObj (es.map fun p => (p.1, renderJ p.2)))) = 64 :=
    goLen_hashString _
  simp only [BuildKey, encodeValue_vmapIface, h64, maxLen]
  norm_num

theorem encodeValue_vmapInt (es : List (String × Int)) :
    encodeValue (.vmapInt es) =
      (if shouldHashData (jsonObj (es.map fun p => (p.1, toString p.2)))
       then Except.ok (hashString (jsonObj (es.map fun p => (p.1, toString p.2))))
       else .ok (jsonObj (es.map fun p => (p.1, toString p.2)))) := rfl

theorem buildKey_vmapInt (es : List (String × Int)) :
    BuildKey (.vmapInt es) =
      (if shouldHashData (jsonObj (es.map fun p => (p.1, toString p.2)))
       then Except.ok (hashString (jsonObj (es.map fun p => (p.1, toString p.2))))
       else .ok (jsonObj (es.map fun p => (p.1, toString p.2)))) := by
  cases h : shouldHashData (jsonObj (es.map fun p => (p.1, toString p.2))) with
  | false =>
    have hraw : ¬ goLen (jsonObj (es.map fun p => (p.1, toString p.2))) > maxLen := by
      simpa [shouldHashData] using h
    simp only [BuildKey, encodeValue_vmapInt, h, if_false, Bool.false_eq_true, hraw]
  | true =>
    have h64 : goLen (hashString (jsonObj (es.map fun p => (p.1, toString p.2)))) = 64 :=
      goLen_hashString _
    simp only [BuildKey, encodeValue_vmapInt, h, if_true, h64, maxLen]
    norm_num

/-! ## Claim C5 and claim C9 -/

/-- C5 counterexample: the claim says every string-keyed map argument is
fingerprinted as the hex SHA-256 of its JSON, never the raw JSON text.  The
type switch in `encodeComplex` only matches `map[string]interface\x7b\x7d`;
a `map[string]int` (the map type the repository's own tests pass) falls to
the default branch, and with a short JSON serialisation its fingerprint IS
the raw JSON text, not the digest. -/
theorem buildKey_mapInt_raw_json_counterexample :
    encodeValue (.vmapInt [("a", 1)]) = .ok "\x7b\"a\":1\x7d" ∧
    BuildKey (.vmapInt [("a", 1)]) = .ok "\x7b\"a\":1\x7d" ∧
    "\x7b\"a\":1\x7d" ≠ hashString "\x7b\"a\":1\x7d" := by
  refine ⟨by decide, by decide, by decide⟩

/-- C5 (amended): an argument of type `map[string]interface\x7b\x7d` is always
fingerprinted as the hex SHA-256 digest of its JSON serialisation, regardless
of length; a string-keyed map of any other element type is hashed only when
its JSON serialisation exceeds 100 bytes, and otherwise the raw JSON text is
the fingerprint. -/
theorem buildKey_stringKeyedMap_hash_policy :
    (∀ es : List (String × JVal),
       BuildKey (.vmapIface es) =
         .ok (hashString (jsonObj (es.map fun p => (p.1, renderJ p.2))))) ∧
    (∀ es : List (String × Int),
       BuildKey (.vmapInt es) =
         (if shouldHashData (jsonObj (es.map fun p => (p.1, toString p.2)))
          then Except.ok (hashString (jsonObj (es.map fun p => (p.1, toString p.2))))
          else .ok (jsonObj (es.map fun p => (p.1, toString p.2))))) :=
  ⟨buildKey_vmapIface, buildKey_vmapInt⟩

/-- C9: the fingerprint is deterministic — equal argument values produce
equal keys, and two string-keyed maps with identical key/value content in
different iteration orders (modelled as permuted binding lists with distinct
keys) produce equal fingerprints, both for `map[string]interface\x7b\x7d`
(always hashed) and for other string-keyed maps such as `map[string]int`:
`encoding/json` sorts the keys before emitting the object. -/
theorem buildKey_deterministic :
    (∀ a₁ a₂ : GoVal, a₁ = a₂ → BuildKey a₁ = BuildKey a₂) ∧
    (∀ es₁ es₂ : List (String × JVal), (es₁.map Prod.fst).Nodup → es₁.Perm es₂ →
       BuildKey (.vmapIface es₁) = BuildKey (.vmapIface es₂)) ∧
    (∀ es₁ es₂ : List (String × Int), (es₁.map Prod.fst).Nodup → es₁.Perm es₂ →
       BuildKey (.vmapInt es₁) = BuildKey (.vmapInt es₂)) := by
  refine ⟨fun a₁ a₂ h => by rw [h], fun es₁ es₂ nd h => ?_, fun es₁ es₂ nd h => ?_⟩
  · have hp : (es₁.map fun p => (p.1, renderJ p.2)).Perm
        (es₂.map fun p => (p.1, renderJ p.2)) := h.map _
    have hnd : ((es₁.map fun p => (p.1, renderJ p.2)).map Prod.fst).Nodup := by
      simpa [List.map_map, Function.comp] using nd
    rw [buildKey_vmapIface, buildKey_vmapIface, jsonObj_perm hp hnd]
  · have hp : (es₁.map fun p => (p.1, toString p.2)).Perm
        (es₂.map fun p => (p.1, toString p.2)) := h.map _
    have hnd : ((es₁.map fun p => (p.1, toString p.2)).map Prod.fst).Nodup := by
      simpa [List.map_map, Function.comp] using nd
    rw [buildKey_vmapInt, buildKey_vmapInt, jsonObj_perm hp hnd]

/-- Witness for C9 at concrete inputs: the two spec-scenario maps
`\x7b"a":1,"b":2\x7d` and `\x7b"b":2,"a":1\x7d` fingerprint equally, in both
map models, and determinism holds at a plain integer. -/
theorem buildKey_deterministic_witness :
    BuildKey (.vmapIface [("a", .jint 1), ("b", .jint 2)]) =
      BuildKey (.vmapIface [("b", .jint 2), ("a", .jint 1)]) ∧
    BuildKey (.vmapInt [("x", 1), ("y", 2)]) =
      BuildKey (.vmapInt [("y", 2), ("x", 1)]) ∧
    BuildKey (.vint 5) = BuildKey (.vint 5) :=
  ⟨buildKey_deterministic.2.1 _ _ (by decide) (List.Perm.swap _ _ _),
   buildKey_deterministic.2.2 _ _ (by decide) (List.Perm.swap _ _ _),
   buildKey_deterministic.1 _ _ rfl⟩

end Keygen

namespace Core

open Keygen (lookupA)

/-! ## internal/core/storage.go

The storage state is embedded functionally.  Go maps (`data`, `elems`)
become association lists with unique keys; `container/list` becomes a list
of nodes carrying a unique identity (`container/list` operates on element
pointers, so `MoveToFront`/`Remove` act on one specific node, identified
here by `Node.id`).  The wall clock is an explicit `Nat` parameter (Go
`time.Now()` with a monotonic reading, in nanoseconds); durations are `Nat`.

The `stopCleanup` channel and the sweeper goroutine: `closeCount` counts how
many times `close(stopCleanup)` has been executed on the channel created by
`NewStorage`.  In Go a second `close` of the same channel panics at runtime.
The sweeper goroutine itself only reads state (it reruns `deleteProxy`
through `cleanupExpired`), so it needs no separate thread of control here. -/

/-- One element of the `container/list` recency list, carrying its key
(`elem.Value`) and its pointer identity. -/
structure Node where
  id : Nat
  key : String
deriving DecidableEq

/-- StorageItem: the stored value and its insertion timestamp. -/
structure StorageItem (V : Type) where
  value : V
  timestamp : Nat
deriving DecidableEq

/-- The Storage struct: `data`, `ll` (front = most recently used), `elems`,
capacity, ttl, cleanup interval, the running flag, plus the close-count of
the one `stopCleanup` channel and a fresh-id counter for list nodes. -/
structure Storage (V : Type) where
  data : List (String × StorageItem V)
  ll : List Node
  elems : List (String × Nat)
  capacity : Nat
  ttl : Nat
  cleanInterval : Nat
  cleanupRunning : Bool
  closeCount : Nat
  nextId : Nat
deriving DecidableEq

/-- Insert or replace a binding in a Go map. -/
def insertA {α : Type u} : List (String × α) → String → α → List (String × α)
  | [], key, v => [(key, v)]
  | (k, w) :: rest, key, v =>
    if k = key then (key, v) :: rest else (k, w) :: insertA rest key v

/-- Delete a binding from a Go map. -/
def eraseA {α : Type u} : List (String × α) → String → List (String × α)
  | [], _ => []
  | (k, w) :: rest, key => if k = key then rest else (k, w) :: eraseA rest key

/-- Remove the list element with identity `i` (list.Remove). -/
def removeId : List Node → Nat → List Node
  | [], _ => []
  | n :: rest, i => if n.id = i then rest else n :: removeId rest i

/-- Find the list element with identity `i`. -/
def findId : List Node → Nat → Option Node
  | [], _ => none
  | n :: rest, i => if n.id = i then some n else findId rest i

/-- list.MoveToFront of the element with identity `i`. -/
def moveToFront (ll : List Node) (i : Nat) : List Node :=
  match findId ll i with
  | some n => n :: removeId ll i
  | none => ll

/-- NewStorage initializes a new Storage with the specified TTL, capacity
(defaulted to 1000 when non-positive) and cleanup interval; the stop channel
is freshly created (`closeCount = 0`) and the sweeper is not running. -/
def NewStorage (V : Type) (ttl : Nat) (capacity : Int) (cleanInterval : Nat) : Storage V :=
  { data := []
    ll := []
    elems := []
    capacity := (if capacity ≤ 0 then 1000 else capacity).toNat
    ttl := ttl
    cleanInterval := cleanInterval
    cleanupRunning := false
    closeCount := 0
    nextId := 0 }

/-- deleteProxy removes a key from the cache and LRU list; if the cache
becomes empty while the sweeper runs, it flips the running flag and closes
the stop channel (a second close would panic in Go — `closeCount` records
every close executed). -/
def Storage.deleteProxy {V : Type} (s : Storage V) (key : String) : Storage V :=
  match lookupA s.elems key with
  | none => s
  | some i =>
    let s := { s with ll := removeId s.ll i
                      elems := eraseA s.elems key
                      data := eraseA s.data key }
    if s.data.length = 0 ∧ s.cleanupRunning then
      { s with cleanupRunning := false, closeCount := s.closeCount + 1 }
    else s

/-- Get retrieves the cached value: on a found element the node is moved to
the front, then the TTL is checked; an expired entry is deleted via
deleteProxy and a miss returned.  Go returns `(zero V, false)` on a miss,
modelled as `none`.  The inner `none` branch for `data` is a nil-pointer
dereference in Go and unreachable while `data` and `elems` share keys. -/
def Storage.Get {V : Type} (s : Storage V) (key : String) (now : Nat) :
    Option V × Storage V :=
  match lookupA s.elems key with
  | none => (none, s)
  | some i =>
    let s := { s with ll := moveToFront s.ll i }
    match lookupA s.data key with
    | none => (none, s)
    | some item =>
      if now - item.timestamp > s.ttl then
        (none, s.deleteProxy key)
      else
        (some item.value, s)

/-- Set inserts or updates the entry: timestamp it, push a NEW front node,
repoint `elems` and `data` at it (the previous node of an existing key is
not removed), evict the back node when over capacity, and start the sweeper
if it is not running (without recreating the stop channel). -/
def Storage.Set {V : Type} (s : Storage V) (key : String) (value : V) (now : Nat) :
    Storage V :=
  let item : StorageItem V := ⟨value, now⟩
  let node : Node := ⟨s.nextId, key⟩
  let s := { s with ll := node :: s.ll
                    elems := insertA s.elems key node.id
                    data := insertA s.data key item
                    nextId := s.nextId + 1 }
  let s :=
    if s.data.length > s.capacity then
      match s.ll.getLast? with
      | some tail =>
        { s with ll := removeId s.ll tail.id
                 elems := eraseA s.elems tail.key
                 data := eraseA s.data tail.key }
      | none => s
    else s
  if s.cleanupRunning then s else { s with cleanupRunning := true }

/-- Delete removes the entry for the key under the lock. -/
def Storage.Delete {V : Type} (s : Storage V) (key : String) : Storage V :=
  s.deleteProxy key

/-- cleanupExpired collects the keys whose TTL has elapsed and then deletes
them (collection and deletion are not interleaved). -/
def Storage.cleanupExpired {V : Type} (s : Storage V) (now : Nat) : Storage V :=
  let expired := (s.data.filter (fun p => now - p.2.timestamp > s.ttl)).map Prod.fst
  expired.foldl (fun s key => s.deleteProxy key) s

/-! ## Lookup lemmas for Go-map well-formed (duplicate-free) states -/

theorem lookupA_eq_none_of_not_mem {α : Type u} :
    ∀ (l : List (String × α)) (key : String), key ∉ l.map Prod.fst → lookupA l key = none := by
  intro l key h
  induction l with
  | nil => rfl
  | cons p rest ih =>
    obtain ⟨pk, pv⟩ := p
    simp only [List.map_cons, List.mem_cons, not_or] at h
    have hne : ¬ (pk = key) := fun e => h.1 e.symm
    simp only [lookupA, if_neg hne]
    exact ih h.2

theorem lookupA_eraseA_self {α : Type u} :
    ∀ (l : List (String × α)) (key : String), (l.map Prod.fst).Nodup →
      lookupA (eraseA l key) key = none := by
  intro l key nd
  induction l with
  | nil => rfl
  | cons p rest ih =>
    obtain ⟨pk, pv⟩ := p
    simp only [List.map_cons, List.nodup_cons] at nd
    by_cases h : pk = key
    · subst h
      simp only [eraseA, if_pos rfl]
      exact lookupA_eq_none_of_not_mem rest pk nd.1
    · simp only [eraseA, if_neg h, lookupA, if_neg h]
      exact ih nd.2

theorem deleteProxy_data_of_found {V : Type} (s : Storage V) (key : String) (i : Nat)
    (h : lookupA s.elems key = some i) :
    (s.deleteProxy key).data = eraseA s.data key := by
  simp only [Storage.deleteProxy, h]
  split <;> rfl

theorem deleteProxy_elems_of_found {V : Type} (s : Storage V) (key : String) (i : Nat)
    (h : lookupA s.elems key = some i) :
    (s.deleteProxy key).elems = eraseA s.elems key := by
  simp only [Storage.deleteProxy, h]
  split <;> rfl

/-! ## Claims C3, C4, C6 -/

/-- C3: the claim says every store operation, including a Set whose key is
already present, preserves I1 (index size = recency-list length) and I2, the
old node being removed.  In the code `Storage.Set` pushes a new front node
and repoints `elems`/`data` without ever removing the previous node of an
existing key: after Set("k",1) then Set("k",2) the index has one entry but
the recency list has two nodes, violating I1 (and leaving a dangling node,
violating I2).  The spec mandates replacement, so this is a code bug. -/
theorem set_existing_key_violates_I1 :
    ((((NewStorage Int 100 10 5).Set "k" 1 0).Set "k" 2 1).data.length = 1) ∧
    ((((NewStorage Int 100 10 5).Set "k" 1 0).Set "k" 2 1).elems.length = 1) ∧
    ((((NewStorage Int 100 10 5).Set "k" 1 0).Set "k" 2 1).ll.length = 2) := by
  refine ⟨by decide, by decide, by decide⟩

/-- C4: the claim says the sweeper stop channel is never closed twice, the
running flag preventing a double close.  `NewStorage` creates the channel
once; `deleteProxy` closes it when the store empties; `Set` restarts the
sweeper but never recreates the channel.  So Set;Delete;Set;Delete executes
`close(stopCleanup)` twice on the same channel — the second close panics in
Go.  The spec calls this out as a programming error to be prevented, so this
is a code bug. -/
theorem set_delete_set_delete_double_close :
    (((((NewStorage Int 100 10 5).Set "k" 1 0).Delete "k").Set "k" 2 1).Delete
        "k").closeCount = 2 ∧
    ((((NewStorage Int 100 10 5).Set "k" 1 0).Delete "k").closeCount = 1) := by
  refine ⟨by decide, by decide⟩

/-- C6: Get(k) on a well-formed store: an absent key misses and leaves the
store unchanged; a present key whose age `now − insertedAt` is at most the
TTL hits, returning the stored value with its node moved to the front of the
recency list; a present key past its TTL is synchronously deleted (its entry
disappears from both `data` and `elems`) and a miss is returned. -/
theorem storage_Get_ttl_spec {V : Type} (s : Storage V) (k : String) (now : Nat)
    (ndd : (s.data.map Prod.fst).Nodup) (nde : (s.elems.map Prod.fst).Nodup) :
    (lookupA s.elems k = none → s.Get k now = (none, s)) ∧
    (∀ i item, lookupA s.elems k = some i → lookupA s.data k = some item →
      findId s.ll i = some ⟨i, k⟩ →
      ((now - item.timestamp ≤ s.ttl →
          (s.Get k now).1 = some item.value ∧
          ((s.Get k now).2.ll.head? = some ⟨i, k⟩)) ∧
       (s.ttl < now - item.timestamp →
          (s.Get k now).1 = none ∧
          lookupA ((s.Get k now).2).data k = none ∧
          lookupA ((s.Get k now).2).elems k = none))) := by
  constructor
  · intro h
    simp [Storage.Get, h]
  · intro i item h1 h2 h3
    constructor
    · intro hle
      have hnot : ¬ (now - item.timestamp > s.ttl) := not_lt.mpr hle
      constructor
      · simp [Storage.Get, h1, h2, hnot]
      · simp [Storage.Get, h1, h2, hnot, moveToFront, h3]
    · intro hgt
      have hif : now - item.timestamp > s.ttl := hgt
      refine ⟨by simp [Storage.Get, h1, h2, hif], ?_, ?_⟩
      · have hfound : lookupA ({ s with ll := moveToFront s.ll i } : Storage V).elems k =
            some i := h1
        simp only [Storage.Get, h1, h2, if_pos hif]
        rw [deleteProxy_data_of_found _ _ _ hfound]
        exact lookupA_eraseA_self _ _ ndd
      · have hfound : lookupA ({ s with ll := moveToFront s.ll i } : Storage V).elems k =
            some i := h1
        simp only [Storage.Get, h1, h2, if_pos hif]
        rw [deleteProxy_elems_of_found _ _ _ hfound]
        exact lookupA_eraseA_self _ _ nde

/-- Witness for C6 on the store holding "a" ↦ 7 inserted at time 0 with
TTL 100: a Get at 50 hits and fronts the node, a Get at 200 expires the
entry, and a Get of an absent key misses. -/
theorem storage_Get_ttl_spec_witness :
    ((((NewStorage Int 100 10 5).Set "a" 7 0).Get "a" 50).1 = some 7) ∧
    ((((NewStorage Int 100 10 5).Set "a" 7 0).Get "a" 50).2.ll.head? = some ⟨0, "a"⟩) ∧
    ((((NewStorage Int 100 10 5).Set "a" 7 0).Get "a" 200).1 = none) ∧
    (lookupA ((((NewStorage Int 100 10 5).Set "a" 7 0).Get "a" 200).2).data "a" = none) ∧
    (((NewStorage Int 100 10 5).Get "zz" 0) = (none, NewStorage Int 100 10 5)) := by
  have h50 := storage_Get_ttl_spec ((NewStorage Int 100 10 5).Set "a" 7 0) "a" 50
    (by decide) (by decide)
  have h200 := storage_Get_ttl_spec ((NewStorage Int 100 10 5).Set "a" 7 0) "a" 200
    (by decide) (by decide)
  have habs := storage_Get_ttl_spec (NewStorage Int 100 10 5) "zz" 0
    (by decide) (by decide)
  have hhit := (h50.2 0 ⟨7, 0⟩ (by decide) (by decide) (by decide)).1 (by decide)
  have hexp := (h200.2 0 ⟨7, 0⟩ (by decide) (by decide) (by decide)).2 (by decide)
  exact ⟨hhit.1, hhit.2, hexp.1, hexp.2.1, habs.1 (by decide)⟩

end Core

namespace Facade

open Keygen (lookupA BuildKey GoVal)
open Core

/-! ## internal/core/cache.go — `cache.call` as a big-step function

One invocation of the wrapped function is embedded as a pure function of the
cache state (the storage plus the set of registered in-flight keys), the
behaviour of the user function on this argument, and the behaviour of the
hooks, producing the caller-visible `(value, error)` outcome, the successor
state, the list of observable events and the pair written into the in-flight
slot on completion (waiters blocked on the slot return that pair verbatim,
line `return ic.val, ic.err`).

A key resident in `inflight` is always an UNcompleted slot: completion
deletes the map entry in the same critical section that fills the slot, so a
sequential caller that finds a slot in the map waits on a barrier that will
never be released — outcome `blocked`.

`HooksB.logError = some lp` means a LogError hook is installed whose i-th
invocation (0-based) panics with payload `lp i` when that is `some`; the
four lifecycle hooks fail or panic according to their `HookBehavior`.  Panic
payloads are carried as the `GoErr` that `toError` converts them to. -/

/-- Behaviour of one lifecycle hook invocation. -/
inductive HookBehavior where
  | ok
  | fails (e : GoErr)
  | panics (p : GoErr)
deriving DecidableEq

/-- Installed hooks and their behaviours (`none` = nil hook). -/
structure HooksB where
  onSet : Option HookBehavior
  onGet : Option HookBehavior
  onExecute : Option HookBehavior
  onDone : Option HookBehavior
  logError : Option (Nat → Option GoErr)

/-- Observable events of one call. -/
inductive Event where
  | invokeF
  | hookOnGet
  | hookOnExecute
  | hookOnDone
  | hookOnSet
  | logCall (e : GoErr)
deriving DecidableEq

/-- Event trace plus the number of LogError invocations so far (the index
into the LogError behaviour). -/
structure ERec where
  events : List Event
  logIdx : Nat
deriving DecidableEq

/-- Number of LogError invocations recorded in a trace. -/
def countLog (evs : List Event) : Nat :=
  evs.countP fun e => match e with | .logCall _ => true | _ => false

/-- hooks.safeLogError: invoke LogError if set; a panic it raises is
recovered and swallowed. -/
def safeLogError (h : HooksB) (e : GoErr) (r : ERec) : ERec :=
  match h.logError with
  | none => r
  | some _ => { events := r.events ++ [.logCall e], logIdx := r.logIdx + 1 }

/-- hooks.Run: a nil hook is skipped; otherwise the hook runs, and an error
it returns or a panic it raises is forwarded to safeLogError and never
propagates. -/
def runHook (h : HooksB) (ev : Event) (b : Option HookBehavior) (r : ERec) : ERec :=
  match b with
  | none => r
  | some .ok => { r with events := r.events ++ [ev] }
  | some (.fails e) => safeLogError h e { r with events := r.events ++ [ev] }
  | some (.panics p) => safeLogError h p { r with events := r.events ++ [ev] }

/-- The direct `c.hooks.LogError(err)` call on the f-error path of
`cache.call` (no recover of its own): the second component is the payload of
the panic LogError raises, if it does. -/
def rawLogError (h : HooksB) (e : GoErr) (r : ERec) : ERec × Option GoErr :=
  match h.logError with
  | none => (r, none)
  | some lp => ({ events := r.events ++ [.logCall e], logIdx := r.logIdx + 1 }, lp r.logIdx)

/-- The `c.hooks.LogError(panicErr)` call inside the top-level recover,
guarded by `defer func() \x7b recover() \x7d ()`: a panic is swallowed, but
when one occurs the assignments `err = panicErr; val = zero` placed after
the call are skipped (the Boolean result). -/
def recoverLogError (h : HooksB) (e : GoErr) (r : ERec) : ERec × Bool :=
  match h.logError with
  | none => (r, false)
  | some lp =>
    ({ events := r.events ++ [.logCall e], logIdx := r.logIdx + 1 }, (lp r.logIdx).isSome)

/-- Behaviour of the user function on the given argument. -/
inductive FnBeh (V : Type) where
  | ret (v : V) (e : Option GoErr)
  | panics (p : GoErr)

/-- Cache state: the storage and the keys of registered in-flight slots. -/
structure CacheState (V : Type) where
  store : Storage V
  inflight : List String
deriving DecidableEq

/-- Caller-visible result: the returned `(value, error)` pair, or `blocked`
for a caller that waits forever on a slot nobody will complete. -/
inductive Outcome (V : Type) where
  | ok (v : V) (e : Option GoErr)
  | blocked
deriving DecidableEq

structure CallRes (V : Type) where
  outcome : Outcome V
  state : CacheState V
  events : List Event
  slotWrite : Option (V × Option GoErr)
deriving DecidableEq

/-- One sequential invocation of `cache.call` (internal/core/cache.go).
`zero` is Go's zero value of `V`; `now` feeds the storage clock. -/
def cacheCall {V : Type} (h : HooksB) (fb : FnBeh V) (zero : V) (st : CacheState V)
    (arg : GoVal) (now : Nat) : CallRes V :=
  match BuildKey arg with
  | .error e => ⟨.ok zero (some e), st, [], none⟩
  | .ok key =>
    match st.store.Get key now with
    | (some v, store1) =>
      let r := runHook h .hookOnGet h.onGet ⟨[], 0⟩
      ⟨.ok v none, ⟨store1, st.inflight⟩, r.events, none⟩
    | (none, store1) =>
      if key ∈ st.inflight then
        ⟨.blocked, ⟨store1, st.inflight⟩, [], none⟩
      else
        let infl := key :: st.inflight
        let r := runHook h .hookOnExecute h.onExecute ⟨[], 0⟩
        match fb with
        | .panics p =>
          let r := { r with events := r.events ++ [.invokeF] }
          let panicErr := GoErr.errPanic p
          let rs := recoverLogError h panicErr r
          if rs.2 then
            ⟨.ok zero none, ⟨store1, infl⟩, rs.1.events, none⟩
          else
            ⟨.ok zero (some panicErr), ⟨store1, infl⟩, rs.1.events, none⟩
        | .ret v e =>
          let r := { r with events := r.events ++ [.invokeF] }
          let r := runHook h .hookOnDone h.onDone r
          let infl2 := infl.erase key
          match e with
          | some er =>
            let rp := rawLogError h er r
            match rp.2 with
            | none => ⟨.ok zero (some er), ⟨store1, infl2⟩, rp.1.events, some (v, some er)⟩
            | some pv =>
              let panicErr := GoErr.errPanic pv
              let rs := recoverLogError h panicErr rp.1
              if rs.2 then
                ⟨.ok v (some er), ⟨store1, infl2⟩, rs.1.events, some (v, some er)⟩
              else
                ⟨.ok zero (some panicErr), ⟨store1, infl2⟩, rs.1.events, some (v, some er)⟩
          | none =>
            let store2 := store1.Set key v now
            let r := runHook h .hookOnSet h.onSet r
            ⟨.ok v none, ⟨store2, infl2⟩, r.events, some (v, none)⟩

/-! ## Event-trace lemmas -/

theorem mem_safeLogError {h : HooksB} {e : GoErr} {r : ERec} {x : Event}
    (hx : x ∈ r.events) : x ∈ (safeLogError h e r).events := by
  cases hl : h.logError <;> simp [safeLogError, hl, hx]

theorem mem_runHook {h : HooksB} {ev : Event} {b : Option HookBehavior} {r : ERec} {x : Event}
    (hx : x ∈ r.events) : x ∈ (runHook h ev b r).events := by
  cases b with
  | none => exact hx
  | some beh =>
    cases beh with
    | ok => simp [runHook, hx]
    | fails e => exact mem_safeLogError (by simp [hx])
    | panics p => exact mem_safeLogError (by simp [hx])

theorem mem_rawLogError {h : HooksB} {e : GoErr} {r : ERec} {x : Event}
    (hx : x ∈ r.events) : x ∈ (rawLogError h e r).1.events := by
  cases hl : h.logError <;> simp [rawLogError, hl, hx]

theorem mem_recoverLogError {h : HooksB} {e : GoErr} {r : ERec} {x : Event}
    (hx : x ∈ r.events) : x ∈ (recoverLogError h e r).1.events := by
  cases hl : h.logError <;> simp [recoverLogError, hl, hx]

/-- Any call that reaches the executor path (computed key, store miss, no
slot registered) invokes the user function, whatever the hook behaviours
and whatever f then does. -/
theorem invokeF_mem_of_executor {V : Type} (h : HooksB) (fb : FnBeh V) (zero : V)
    (st : CacheState V) (arg : GoVal) (now : Nat) (key : String)
    (hkey : BuildKey arg = .ok key)
    (hmiss : lookupA st.store.elems key = none)
    (hinf : key ∉ st.inflight) :
    Event.invokeF ∈ (cacheCall h fb zero st arg now).events := by
  have hget : st.store.Get key now = (none, st.store) := by
    simp [Storage.Get, hmiss]
  cases fb with
  | panics p =>
    simp only [cacheCall, hkey, hget, if_neg hinf]
    split
    · refine mem_recoverLogError ?_
      simp
    · refine mem_recoverLogError ?_
      simp
  | ret v e =>
    cases e with
    | none =>
      simp only [cacheCall, hkey, hget, if_neg hinf]
      refine mem_runHook (mem_runHook ?_)
      simp
    | some er =>
      simp only [cacheCall, hkey, hget, if_neg hinf]
      split
      · refine mem_rawLogError (mem_runHook ?_)
        simp
      · split
        · refine mem_recoverLogError (mem_rawLogError (mem_runHook ?_))
          simp
        · refine mem_recoverLogError (mem_rawLogError (mem_runHook ?_))
          simp

/-! ## Claims C2 and C7 -/

/-- C2: the claim says a panicking f(a) yields an ErrPanic error with the
zero value, one LogError call, no cache entry, and a completed-and-removed
in-flight slot so that a subsequent call with the same argument invokes f
anew.  The first parts hold, but the slot completion block of `cache.call`
(delete the inflight entry, fill the slot, wg.Done) sits between the `c.fn`
call and the error handling, and a panic in `c.fn` unwinds straight past it
into the deferred recover: the slot stays registered and never completes.
The model evaluates the failing input — f panicking on argument 1 — and
shows the second call with the same argument finds the leaked slot and
blocks forever without invoking f, contradicting the claim and §4.4 of the
spec (the panic is never "stored in the slot"). -/
theorem panic_leaves_inflight_slot_registered :
    (let res := cacheCall ⟨none, none, none, none, some fun _ => none⟩
        (.panics (.str "boom")) (0 : Int) ⟨NewStorage Int 100 10 10, []⟩ (.vint 1) 0
     let res2 := cacheCall ⟨none, none, none, none, some fun _ => none⟩
        (.ret 5 none) (0 : Int) res.state (.vint 1) 1
     res.outcome = .ok 0 (some (.errPanic (.str "boom"))) ∧
     countLog res.events = 1 ∧
     lookupA res.state.store.data "1" = none ∧
     res.state.inflight = ["1"] ∧
     res.slotWrite = none ∧
     res2.outcome = .blocked ∧
     Event.invokeF ∉ res2.events) := by
  decide

/-- C7: if f(a) returns a non-nil error, the result is not stored (the
store is unchanged and in particular holds no entry for a's key), the error
is forwarded to LogError (exactly one LogError call) and returned to the
caller with the zero value of V, the slot is deregistered, and the next
call of the wrapped function with the same argument reaches f again —
stated for any behaviours of f on the second call, with a LogError hook
that honours its documented no-panic contract and benign OnExecute/OnDone
hooks. -/
theorem cacheCall_error_not_cached {V : Type} (h : HooksB) (v zero : V) (er : GoErr)
    (fb2 : FnBeh V) (st : CacheState V) (arg : GoVal) (now now2 : Nat) (key : String)
    (lp : Nat → Option GoErr)
    (hkey : BuildKey arg = .ok key)
    (hmiss : lookupA st.store.elems key = none)
    (hinf : key ∉ st.inflight)
    (hlog : h.logError = some lp)
    (hnp : ∀ i, lp i = none)
    (hbe : h.onExecute = none ∨ h.onExecute = some .ok)
    (hbd : h.onDone = none ∨ h.onDone = some .ok) :
    (cacheCall h (.ret v (some er)) zero st arg now).outcome = .ok zero (some er) ∧
    (cacheCall h (.ret v (some er)) zero st arg now).state.store = st.store ∧
    (cacheCall h (.ret v (some er)) zero st arg now).state.inflight = st.inflight ∧
    countLog (cacheCall h (.ret v (some er)) zero st arg now).events = 1 ∧
    Event.logCall er ∈ (cacheCall h (.ret v (some er)) zero st arg now).events ∧
    Event.invokeF ∈
      (cacheCall h fb2 zero (cacheCall h (.ret v (some er)) zero st arg now).state
        arg now2).events := by
  have hget : st.store.Get key now = (none, st.store) := by
    simp [Storage.Get, hmiss]
  rcases hbe with hbe | hbe <;> rcases hbd with hbd | hbd <;>
    refine ⟨by simp [cacheCall, hkey, hget, hinf, hbe, hbd, runHook, rawLogError, hlog, hnp],
      by simp [cacheCall, hkey, hget, hinf, hbe, hbd, runHook, rawLogError, hlog, hnp],
      by simp [cacheCall, hkey, hget, hinf, hbe, hbd, runHook, rawLogError, hlog, hnp],
      by simp [cacheCall, hkey, hget, hinf, hbe, hbd, runHook, rawLogError, hlog, hnp, countLog],
      by simp [cacheCall, hkey, hget, hinf, hbe, hbd, runHook, rawLogError, hlog, hnp],
      ?_⟩ <;>
  · have hst : (cacheCall h (.ret v (some er)) zero st arg now).state =
        ⟨st.store, st.inflight⟩ := by
      simp [cacheCall, hkey, hget, hinf, hbe, hbd, runHook, rawLogError, hlog, hnp]
    rw [hst]
    exact invokeF_mem_of_executor h fb2 zero ⟨st.store, st.inflight⟩ arg now2 key hkey
      hmiss hinf

/-- Witness for C7: f returns (9, error "e") on argument 2 against a fresh
cache with well-behaved hooks; the caller gets (0, "e"), nothing is cached,
LogError fires once, and a repeat call reaches f. -/
theorem cacheCall_error_not_cached_witness :
    (cacheCall ⟨none, none, some .ok, some .ok, some fun _ => none⟩
        (.ret 9 (some (.str "e"))) (0 : Int) ⟨NewStorage Int 100 10 10, []⟩ (.vint 2)
        0).outcome = .ok 0 (some (.str "e")) ∧
    (cacheCall ⟨none, none, some .ok, some .ok, some fun _ => none⟩
        (.ret 9 (some (.str "e"))) (0 : Int) ⟨NewStorage Int 100 10 10, []⟩ (.vint 2)
        0).state.store = NewStorage Int 100 10 10 ∧
    (cacheCall ⟨none, none, some .ok, some .ok, some fun _ => none⟩
        (.ret 9 (some (.str "e"))) (0 : Int) ⟨NewStorage Int 100 10 10, []⟩ (.vint 2)
        0).state.inflight = [] ∧
    countLog (cacheCall ⟨none, none, some .ok, some .ok, some fun _ => none⟩
        (.ret 9 (some (.str "e"))) (0 : Int) ⟨NewStorage Int 100 10 10, []⟩ (.vint 2)
        0).events = 1 ∧
    Event.logCall (.str "e") ∈ (cacheCall ⟨none, none, some .ok, some .ok, some fun _ => none⟩
        (.ret 9 (some (.str "e"))) (0 : Int) ⟨NewStorage Int 100 10 10, []⟩ (.vint 2)
        0).events ∧
    Event.invokeF ∈ (cacheCall ⟨none, none, some .ok, some .ok, some fun _ => none⟩
        (.ret 9 none) (0 : Int)
        (cacheCall ⟨none, none, some .ok, some .ok, some fun _ => none⟩
          (.ret 9 (some (.str "e"))) (0 : Int) ⟨NewStorage Int 100 10 10, []⟩ (.vint 2)
          0).state (.vint 2) 1).events :=
  cacheCall_error_not_cached ⟨none, none, some .ok, some .ok, some fun _ => none⟩ 9 0
    (.str "e") (.ret 9 none) ⟨NewStorage Int 100 10 10, []⟩ (.vint 2) 0 1 "2"
    (fun _ => none) (by decide) (by decide) (by decide) rfl (fun _ => rfl)
    (Or.inr rfl) (Or.inr rfl)

/-! ## Claim C8: counting LogError invocations -/

/-- One if the hook invocation fails or panics (one originating failure),
zero otherwise. -/
def hookFailCount : Option HookBehavior → Nat
  | some (.fails _) => 1
  | some (.panics _) => 1
  | _ => 0

theorem countLog_append (l₁ l₂ : List Event) :
    countLog (l₁ ++ l₂) = countLog l₁ + countLog l₂ :=
  List.countP_append _ _ _

theorem countLog_safeLogError {h : HooksB} {lp : Nat → Option GoErr} (e : GoErr) (r : ERec)
    (hlog : h.logError = some lp) :
    countLog (safeLogError h e r).events = countLog r.events + 1 := by
  simp [safeLogError, hlog, countLog_append, countLog]

theorem countLog_runHook {h : HooksB} {lp : Nat → Option GoErr} (ev : Event)
    (b : Option HookBehavior) (r : ERec) (hlog : h.logError = some lp)
    (hev : countLog [ev] = 0) :
    countLog (runHook h ev b r).events = countLog r.events + hookFailCount b := by
  cases b with
  | none => simp [runHook, hookFailCount]
  | some beh =>
    cases beh with
    | ok => simp [runHook, hookFailCount, countLog_append, hev]
    | fails e =>
      rw [runHook, countLog_safeLogError e _ hlog]
      simp [countLog_append, hev, hookFailCount]
    | panics p =>
      rw [runHook, countLog_safeLogError p _ hlog]
      simp [countLog_append, hev, hookFailCount]

/-- C8 counterexample: the claim says a panic inside LogError is swallowed
without changing the caller-visible result, and LogError runs at most once
per originating failure.  The direct `c.hooks.LogError(err)` call on the
f-error path of `cache.call` has no recover of its own: when LogError
panics there, the panic reaches the top-level recover, which converts it to
ErrPanic, invokes LogError a second time and replaces the caller's error.
With f returning (7, error "boom") and a LogError whose first invocation
panics with "lp", the caller receives ErrPanic("lp") instead of "boom" and
LogError runs twice. -/
theorem logError_panic_alters_result :
    (let res := cacheCall
        ⟨none, none, none, none, some fun i => if i = 0 then some (.str "lp") else none⟩
        (.ret 7 (some (.str "boom"))) (0 : Int) ⟨NewStorage Int 100 10 10, []⟩ (.vint 1) 0
     res.outcome = .ok 0 (some (.errPanic (.str "lp"))) ∧
     res.outcome ≠ .ok 0 (some (.str "boom")) ∧
     countLog res.events = 2) := by
  decide

/-- C8 (amended): failures of the four lifecycle hooks never alter the
caller-visible result — on a cache hit the caller gets the cached value, and
on a successful execution the caller gets f's value and the store its entry,
whatever the hook behaviours, including a LogError that panics while
handling their failures (those panics are swallowed by the dispatcher); and
when LogError honours its documented no-panic contract, each originating
failure is logged exactly once: a call whose f returns an error produces
exactly 1 + (OnExecute failed) + (OnDone failed) LogError invocations.  (A
LogError panic during the facade's own f-error or f-panic handling does
alter the result — see the counterexample.) -/
theorem hooks_isolation_amended :
    (∀ (V : Type) (h : HooksB) (v zero : V) (st : CacheState V) (arg : GoVal)
       (now : Nat) (key : String),
       BuildKey arg = .ok key → lookupA st.store.elems key = none → key ∉ st.inflight →
       (cacheCall h (.ret v none) zero st arg now).outcome = .ok v none ∧
       (cacheCall h (.ret v none) zero st arg now).state.store = st.store.Set key v now ∧
       (cacheCall h (.ret v none) zero st arg now).state.inflight = st.inflight) ∧
    (∀ (V : Type) (h : HooksB) (fb : FnBeh V) (zero w : V) (store1 : Storage V)
       (st : CacheState V) (arg : GoVal) (now : Nat) (key : String),
       BuildKey arg = .ok key → st.store.Get key now = (some w, store1) →
       (cacheCall h fb zero st arg now).outcome = .ok w none) ∧
    (∀ (V : Type) (h : HooksB) (v zero : V) (er : GoErr) (st : CacheState V)
       (arg : GoVal) (now : Nat) (key : String) (lp : Nat → Option GoErr),
       BuildKey arg = .ok key → lookupA st.store.elems key = none → key ∉ st.inflight →
       h.logError = some lp → (∀ i, lp i = none) →
       countLog (cacheCall h (.ret v (some er)) zero st arg now).events =
         1 + hookFailCount h.onExecute + hookFailCount h.onDone) := by
  refine ⟨?_, ?_, ?_⟩
  · intro V h v zero st arg now key hkey hmiss hinf
    have hget : st.store.Get key now = (none, st.store) := by
      simp [Storage.Get, hmiss]
    refine ⟨?_, ?_, ?_⟩ <;> simp [cacheCall, hkey, hget, hinf]
  · intro V h fb zero w store1 st arg now key hkey hhit
    simp [cacheCall, hkey, hhit]
  · intro V h v zero er st arg now key lp hkey hmiss hinf hlog hnp
    have hget : st.store.Get key now = (none, st.store) := by
      simp [Storage.Get, hmiss]
    simp only [cacheCall, hkey, hget, if_neg hinf, rawLogError, hlog, hnp]
    rw [countLog_append, countLog_runHook Event.hookOnDone h.onDone _ hlog (by simp [countLog]),
      countLog_append, countLog_runHook Event.hookOnExecute h.onExecute _ hlog (by simp [countLog])]
    simp [countLog]
    omega

/-- Witness for C8 (amended): a fully misbehaving hook set (every lifecycle
hook failing or panicking, LogError panicking on every invocation) neither
corrupts a successful execution nor a cache hit; and with a well-behaved
LogError, an f error plus a failing OnExecute and a panicking OnDone log
exactly three times. -/
theorem hooks_isolation_amended_witness :
    (cacheCall ⟨some (.panics (.str "p1")), some (.fails (.str "g")),
        some (.fails (.str "x")), some (.panics (.str "d")),
        some fun _ => some (.str "lpp")⟩
      (.ret 9 none) (0 : Int) ⟨NewStorage Int 100 10 10, []⟩ (.vint 3) 0).outcome =
        .ok 9 none ∧
    (cacheCall ⟨some (.panics (.str "p1")), some (.fails (.str "g")),
        some (.fails (.str "x")), some (.panics (.str "d")),
        some fun _ => some (.str "lpp")⟩
      (.ret 5 none) (0 : Int) ⟨(NewStorage Int 100 10 10).Set "1" 42 0, []⟩ (.vint 1)
      5).outcome = .ok 42 none ∧
    countLog (cacheCall ⟨none, none, some (.fails (.str "x")), some (.panics (.str "d")),
        some fun _ => none⟩
      (.ret 7 (some (.str "boom"))) (0 : Int) ⟨NewStorage Int 100 10 10, []⟩ (.vint 1)
      0).events = 1 + hookFailCount (some (.fails (.str "x"))) +
        hookFailCount (some (.panics (.str "d"))) := by
  refine ⟨(hooks_isolation_amended.1 Int _ 9 0 _ (.vint 3) 0 "3" (by decide) (by decide)
      (by decide)).1,
    hooks_isolation_amended.2.1 Int _ (.ret 5 none) 0 42
      (((NewStorage Int 100 10 10).Set "1" 42 0).Get "1" 5).2
      ⟨(NewStorage Int 100 10 10).Set "1" 42 0, []⟩ (.vint 1) 5 "1" (by decide) (by decide),
    hooks_isolation_amended.2.2 Int _ 7 0 (.str "boom") _ (.vint 1) 0 "1" (fun _ => none)
      (by decide) (by decide) (by decide) rfl (fun _ => rfl)⟩

end Facade

namespace Flight

open Facade (FnBeh)

/-! ## The single-flight coordinator as a small-step interleaving model

N goroutines concurrently run `cache.call` with arguments of one common
fingerprint against an initially empty store.  Each mutex-protected critical
section of the source becomes one atomic transition (Go guarantees mutual
exclusion, and each section touches only lock-protected state):

* `start`: read the store under its RWMutex (`c.store.Get`) — hit returns,
  miss proceeds to the coordinator;
* `enter`: `c.mu.Lock()`; if `c.inflight[key]` exists become a waiter on
  that slot, else create a pending slot, register it, and become the
  executor (lines 412-424);
* `running`: invoke `c.fn` outside the lock; on a panic the goroutine's
  deferred recover returns `(zero, ErrPanic)` directly, skipping slot
  completion (the slot and the inflight entry leak);
* `publishing`: `c.mu.Lock()`; delete the inflight entry, write `(v, e)`
  into the slot, `wg.Done()`, then — still before the deferred Unlock —
  either store the value on success and return `(v, nil)`, or return
  `(zero, err)` on error (lines 437-460);
* `waiting`: `ic.wg.Wait()` returns only once the slot is completed, then
  the waiter returns the slot's pair verbatim (line 417).

Slot objects are indexed by creation order; `none` is a pending slot.
`fInv` counts invocations of the user function.  Hooks do not touch the
coordinator state and are treated in the sequential facade model. -/

/-- Program counter of one goroutine inside `cache.call`. -/
inductive GPC (V : Type) where
  | start
  | enter
  | waiting (sid : Nat)
  | running (sid : Nat)
  | publishing (sid : Nat) (v : V) (e : Option GoErr)
  | done (v : V) (e : Option GoErr)
deriving DecidableEq

/-- Shared state: the store entry and coordinator entry for the common key,
all slot objects ever created, the goroutines, and the f-invocation count. -/
structure SFState (V : Type) where
  store : Option V
  inflight : Option Nat
  slots : List (Option (V × Option GoErr))
  gs : List (GPC V)
  fInv : Nat
deriving DecidableEq

/-- One scheduler step of goroutine `g` (no-op when `g` is out of range,
finished, or blocked on a pending slot). -/
def step {V : Type} (fb : FnBeh V) (zero : V) (s : SFState V) (g : Nat) : SFState V :=
  match s.gs[g]? with
  | none => s
  | some pc =>
    match pc with
    | .start =>
      match s.store with
      | some v => { s with gs := s.gs.set g (.done v none) }
      | none => { s with gs := s.gs.set g .enter }
    | .enter =>
      match s.inflight with
      | some sid => { s with gs := s.gs.set g (.waiting sid) }
      | none =>
        { s with slots := s.slots ++ [none]
                 inflight := some s.slots.length
                 gs := s.gs.set g (.running s.slots.length) }
    | .running sid =>
      match fb with
      | .ret v e => { s with fInv := s.fInv + 1, gs := s.gs.set g (.publishing sid v e) }
      | .panics p =>
        { s with fInv := s.fInv + 1, gs := s.gs.set g (.done zero (some (.errPanic p))) }
    | .publishing sid v e =>
      let s1 := { s with inflight := none, slots := s.slots.set sid (some (v, e)) }
      match e with
      | none => { s1 with store := some v, gs := s1.gs.set g (.done v none) }
      | some er => { s1 with gs := s1.gs.set g (.done zero (some er)) }
    | .waiting sid =>
      match s.slots[sid]? with
      | some (some ve) => { s with gs := s.gs.set g (.done ve.1 ve.2) }
      | _ => s
    | .done _ _ => s

/-- N goroutines all at `start` against an empty store and coordinator. -/
def initSF (V : Type) (N : Nat) : SFState V :=
  ⟨none, none, [], List.replicate N .start, 0⟩

/-- Run a schedule (a list of goroutine indices). -/
def run {V : Type} (fb : FnBeh V) (zero : V) (N : Nat) (σ : List Nat) : SFState V :=
  σ.foldl (step fb zero) (initSF V N)

/-- Number of goroutines currently at `running` (executor about to call f). -/
def countRunning {V : Type} (s : SFState V) : Nat :=
  s.gs.countP fun pc => match pc with | .running _ => true | _ => false

def isDone {V : Type} : GPC V → Bool
  | .done _ _ => true
  | _ => false

/-- Every goroutine has returned. -/
def allDone {V : Type} (s : SFState V) : Prop := ∀ pc ∈ s.gs, isDone pc = true

instance {V : Type} [DecidableEq V] (s : SFState V) : Decidable (allDone s) :=
  inferInstanceAs (Decidable (∀ pc ∈ s.gs, isDone pc = true))

/-- The error every caller observes, as a function of f's behaviour. -/
def fbErr {V : Type} : FnBeh V → Option GoErr
  | .ret _ e => e
  | .panics p => some (.errPanic p)

/-- Counting elements after updating one position. -/
theorem countP_set {α : Type u} (p : α → Bool) :
    ∀ (l : List α) (i : Nat) (x a : α), l[i]? = some a →
      (l.set i x).countP p + (if p a then 1 else 0) =
        l.countP p + (if p x then 1 else 0) := by
  intro l
  induction l with
  | nil => intro i x a h; simp at h
  | cons y ys ih =>
    intro i x a h
    cases i with
    | zero =>
      simp only [List.getElem?_cons_zero, Option.some.injEq] at h
      subst h
      simp [List.countP_cons]
      omega
    | succ i =>
      simp only [List.getElem?_cons_succ] at h
      simp only [List.set_cons_succ, List.countP_cons]
      have := ih i x a h
      omega

def isRunning {V : Type} : GPC V → Bool
  | .running _ => true
  | _ => false

theorem countRunning_eq {V : Type} (s : SFState V) :
    countRunning s = s.gs.countP isRunning := by
  rfl

theorem forall_mem_set {α : Type u} {P : α → Prop} {l : List α} {i : Nat} {x : α}
    (hl : ∀ a ∈ l, P a) (hx : P x) : ∀ a ∈ l.set i x, P a := by
  intro a ha
  rcases List.mem_or_eq_of_mem_set ha with hm | he
  · exact hl a hm
  · exact he ▸ hx

/-- The trace invariant of the coordinator: (1) every created slot was paid
for by exactly one invocation of f, past or imminent; (2) every completed
slot holds f's pair; (3) the store holds f's value only after a success;
(4) a publishing goroutine carries f's pair; (5) every finished goroutine
observed f's error, and f's value on success. -/
def Inv {V : Type} (fb : FnBeh V) (s : SFState V) : Prop :=
  (s.fInv + countRunning s = s.slots.length) ∧
  (∀ q ∈ s.slots, ∀ ve : V × Option GoErr, q = some ve → fb = .ret ve.1 ve.2) ∧
  (∀ w, s.store = some w → fb = .ret w none) ∧
  (∀ pc ∈ s.gs, ∀ sid v e, pc = .publishing sid v e → fb = .ret v e) ∧
  (∀ pc ∈ s.gs, ∀ v e, pc = .done v e →
     e = fbErr fb ∧ ∀ w, fb = .ret w none → v = w)

theorem step_start_hit {V : Type} {fb : FnBeh V} {zero v : V} {s : SFState V} {g : Nat}
    (hg : s.gs[g]? = some .start) (hst : s.store = some v) :
    step fb zero s g = { s with gs := s.gs.set g (.done v none) } := by
  unfold step; rw [hg, hst]

theorem step_start_miss {V : Type} {fb : FnBeh V} {zero : V} {s : SFState V} {g : Nat}
    (hg : s.gs[g]? = some .start) (hst : s.store = none) :
    step fb zero s g = { s with gs := s.gs.set g .enter } := by
  unfold step; rw [hg, hst]

theorem step_enter_wait {V : Type} {fb : FnBeh V} {zero : V} {s : SFState V} {g sid : Nat}
    (hg : s.gs[g]? = some .enter) (hin : s.inflight = some sid) :
    step fb zero s g = { s with gs := s.gs.set g (.waiting sid) } := by
  unfold step; rw [hg, hin]

theorem step_enter_create {V : Type} {fb : FnBeh V} {zero : V} {s : SFState V} {g : Nat}
    (hg : s.gs[g]? = some .enter) (hin : s.inflight = none) :
    step fb zero s g =
      { s with slots := s.slots ++ [none]
               inflight := some s.slots.length
               gs := s.gs.set g (.running s.slots.length) } := by
  unfold step; rw [hg, hin]

theorem step_running_ret {V : Type} {zero v : V} {e : Option GoErr} {s : SFState V}
    {g sid : Nat} (hg : s.gs[g]? = some (.running sid)) :
    step (.ret v e) zero s g =
      { s with fInv := s.fInv + 1, gs := s.gs.set g (.publishing sid v e) } := by
  unfold step; rw [hg]

theorem step_running_panics {V : Type} {zero : V} {p : GoErr} {s : SFState V}
    {g sid : Nat} (hg : s.gs[g]? = some (.running sid)) :
    step (.panics p) zero s g =
      { s with fInv := s.fInv + 1
               gs := s.gs.set g (.done zero (some (.errPanic p))) } := by
  unfold step; rw [hg]

theorem step_publishing_none {V : Type} {fb : FnBeh V} {zero v : V} {s : SFState V}
    {g sid : Nat} (hg : s.gs[g]? = some (.publishing sid v none)) :
    step fb zero s g =
      { s with store := some v
               inflight := none
               slots := s.slots.set sid (some (v, none))
               gs := s.gs.set g (.done v none) } := by
  unfold step; rw [hg]

theorem step_publishing_some {V : Type} {fb : FnBeh V} {zero v : V} {er : GoErr}
    {s : SFState V} {g sid : Nat} (hg : s.gs[g]? = some (.publishing sid v (some er))) :
    step fb zero s g =
      { s with inflight := none
               slots := s.slots.set sid (some (v, some er))
               gs := s.gs.set g (.done zero (some er)) } := by
  unfold step; rw [hg]

theorem step_waiting_done {V : Type} {fb : FnBeh V} {zero : V} {ve : V × Option GoErr}
    {s : SFState V} {g sid : Nat} (hg : s.gs[g]? = some (.waiting sid))
    (hslot : s.slots[sid]? = some (some ve)) :
    step fb zero s g = { s with gs := s.gs.set g (.done ve.1 ve.2) } := by
  unfold step; rw [hg]; dsimp only; rw [hslot]

theorem step_waiting_blocked {V : Type} {fb : FnBeh V} {zero : V} {s : SFState V}
    {g sid : Nat} (hg : s.gs[g]? = some (.waiting sid))
    (hslot : s.slots[sid]? = none) :
    step fb zero s g = s := by
  unfold step; rw [hg]; dsimp only; rw [hslot]

theorem step_waiting_pending {V : Type} {fb : FnBeh V} {zero : V} {s : SFState V}
    {g sid : Nat} (hg : s.gs[g]? = some (.waiting sid))
    (hslot : s.slots[sid]? = some none) :
    step fb zero s g = s := by
  unfold step; rw [hg]; dsimp only; rw [hslot]

theorem step_done {V : Type} {fb : FnBeh V} {zero v : V} {e : Option GoErr}
    {s : SFState V} {g : Nat} (hg : s.gs[g]? = some (.done v e)) :
    step fb zero s g = s := by
  unfold step; rw [hg]

theorem step_oor {V : Type} {fb : FnBeh V} {zero : V} {s : SFState V} {g : Nat}
    (hg : s.gs[g]? = none) : step fb zero s g = s := by
  unfold step; rw [hg]

theorem inv_init {V : Type} (fb : FnBeh V) (N : Nat) : Inv fb (initSF V N) := by
  have hz : countRunning (initSF V N) = 0 := by
    rw [countRunning_eq]
    refine List.countP_eq_zero.mpr ?_
    intro a ha
    rw [List.eq_of_mem_replicate ha]
    simp [isRunning]
  refine ⟨?_, ?_, ?_, ?_, ?_⟩
  · show (initSF V N).fInv + countRunning (initSF V N) = (initSF V N).slots.length
    rw [hz]
    rfl
  · intro q hq; simp [initSF] at hq
  · intro w hw; simp [initSF] at hw
  · intro pc hpc sid v e heq
    rw [List.eq_of_mem_replicate hpc] at heq
    cases heq
  · intro pc hpc v e heq
    rw [List.eq_of_mem_replicate hpc] at heq
    cases heq

theorem inv_step {V : Type} (fb : FnBeh V) (zero : V) (s : SFState V) (g : Nat)
    (hs : Inv fb s) : Inv fb (step fb zero s g) := by
  obtain ⟨h1, h2, h3, h4, h5⟩ := hs
  cases hg : s.gs[g]? with
  | none => rw [step_oor hg]; exact ⟨h1, h2, h3, h4, h5⟩
  | some pc =>
    have hpcmem : pc ∈ s.gs := List.getElem?_mem hg
    cases pc with
    | start =>
      cases hst : s.store with
      | some v =>
        have hfb : fb = .ret v none := h3 v hst
        rw [step_start_hit hg hst]
        refine ⟨?_, h2, h3, ?_, ?_⟩
        · have hc := countP_set isRunning s.gs g (.done v none) .start hg
          simp [isRunning] at hc
          simp only [countRunning_eq] at h1 ⊢
          rw [hc]; exact h1
        · refine forall_mem_set h4 ?_
          intro sid v0 e0 heq; cases heq
        · refine forall_mem_set h5 ?_
          intro v0 e0 heq
          injection heq with hv he
          subst hv; subst he
          refine ⟨by rw [hfb]; rfl, ?_⟩
          intro w hw
          rw [hfb] at hw
          cases hw
          rfl
      | none =>
        rw [step_start_miss hg hst]
        refine ⟨?_, h2, h3, ?_, ?_⟩
        · have hc := countP_set isRunning s.gs g .enter .start hg
          simp [isRunning] at hc
          simp only [countRunning_eq] at h1 ⊢
          rw [hc]; exact h1
        · refine forall_mem_set h4 ?_
          intro sid0 v0 e0 heq; cases heq
        · refine forall_mem_set h5 ?_
          intro v0 e0 heq; cases heq
    | enter =>
      cases hin : s.inflight with
      | some sid =>
        rw [step_enter_wait hg hin]
        refine ⟨?_, h2, h3, ?_, ?_⟩
        · have hc := countP_set isRunning s.gs g (.waiting sid) .enter hg
          simp [isRunning] at hc
          simp only [countRunning_eq] at h1 ⊢
          rw [hc]; exact h1
        · refine forall_mem_set h4 ?_
          intro sid0 v0 e0 heq; cases heq
        · refine forall_mem_set h5 ?_
          intro v0 e0 heq; cases heq
      | none =>
        rw [step_enter_create hg hin]
        refine ⟨?_, ?_, h3, ?_, ?_⟩
        · have hc := countP_set isRunning s.gs g (.running s.slots.length) .enter hg
          simp [isRunning] at hc
          simp only [countRunning_eq] at h1 ⊢
          simp only [List.length_append, List.length_cons, List.length_nil]
          omega
        · intro q hq ve heq
          rcases List.mem_append.mp hq with hm | hm
          · exact h2 q hm ve heq
          · rw [List.mem_singleton.mp hm] at heq; cases heq
        · refine forall_mem_set h4 ?_
          intro sid0 v0 e0 heq; cases heq
        · refine forall_mem_set h5 ?_
          intro v0 e0 heq; cases heq
    | running sid =>
      cases fb with
      | ret v e =>
        rw [step_running_ret hg]
        refine ⟨?_, h2, h3, ?_, ?_⟩
        · have hc := countP_set isRunning s.gs g (.publishing sid v e) (.running sid) hg
          simp [isRunning] at hc
          simp only [countRunning_eq] at h1 ⊢
          omega
        · refine forall_mem_set h4 ?_
          intro sid0 v0 e0 heq
          injection heq with hsid hv he
          rw [hv, he]
        · refine forall_mem_set h5 ?_
          intro v0 e0 heq; cases heq
      | panics p =>
        rw [step_running_panics hg]
        refine ⟨?_, h2, h3, ?_, ?_⟩
        · have hc := countP_set isRunning s.gs g
            (.done zero (some (.errPanic p))) (.running sid) hg
          simp [isRunning] at hc
          simp only [countRunning_eq] at h1 ⊢
          omega
        · refine forall_mem_set h4 ?_
          intro sid0 v0 e0 heq; cases heq
        · refine forall_mem_set h5 ?_
          intro v0 e0 heq
          injection heq with hv he
          subst hv; subst he
          refine ⟨rfl, ?_⟩
          intro w hw; cases hw
    | publishing sid v e =>
      have hfb : fb = .ret v e := h4 _ hpcmem sid v e rfl
      cases e with
      | none =>
        rw [step_publishing_none hg]
        refine ⟨?_, ?_, ?_, ?_, ?_⟩
        · have hc := countP_set isRunning s.gs g (.done v none) (.publishing sid v none) hg
          simp [isRunning] at hc
          simp only [countRunning_eq] at h1 ⊢
          simp only [List.length_set]
          rw [hc]; exact h1
        · refine forall_mem_set h2 ?_
          intro ve heq
          injection heq with hve
          rw [← hve]
          exact hfb
        · intro w hw
          injection hw with hw
          rw [← hw]
          exact hfb
        · refine forall_mem_set h4 ?_
          intro sid0 v0 e0 heq; cases heq
        · refine forall_mem_set h5 ?_
          intro v0 e0 heq
          injection heq with hv he
          subst hv; subst he
          refine ⟨by rw [hfb]; rfl, ?_⟩
          intro w hw
          rw [hfb] at hw
          cases hw
          rfl
      | some er =>
        rw [step_publishing_some hg]
        refine ⟨?_, ?_, h3, ?_, ?_⟩
        · have hc := countP_set isRunning s.gs g
            (.done zero (some er)) (.publishing sid v (some er)) hg
          simp [isRunning] at hc
          simp only [countRunning_eq] at h1 ⊢
          simp only [List.length_set]
          rw [hc]; exact h1
        · refine forall_mem_set h2 ?_
          intro ve heq
          injection heq with hve
          rw [← hve]
          exact hfb
        · refine forall_mem_set h4 ?_
          intro sid0 v0 e0 heq; cases heq
        · refine forall_mem_set h5 ?_
          intro v0 e0 heq
          injection heq with hv he
          subst hv; subst he
          refine ⟨by rw [hfb]; rfl, ?_⟩
          intro w hw
          rw [hfb] at hw
          cases hw
    | waiting sid =>
      cases hslot : s.slots[sid]? with
      | none => rw [step_waiting_blocked hg hslot]; exact ⟨h1, h2, h3, h4, h5⟩
      | some q =>
        cases q with
        | none => rw [step_waiting_pending hg hslot]; exact ⟨h1, h2, h3, h4, h5⟩
        | some ve =>
          have hvemem : some ve ∈ s.slots := List.getElem?_mem hslot
          have hfb : fb = .ret ve.1 ve.2 := h2 _ hvemem ve rfl
          rw [step_waiting_done hg hslot]
          refine ⟨?_, h2, h3, ?_, ?_⟩
          · have hc := countP_set isRunning s.gs g (.done ve.1 ve.2) (.waiting sid) hg
            simp [isRunning] at hc
            simp only [countRunning_eq] at h1 ⊢
            rw [hc]; exact h1
          · refine forall_mem_set h4 ?_
            intro sid0 v0 e0 heq; cases heq
          · refine forall_mem_set h5 ?_
            intro v0 e0 heq
            injection heq with hv he
            subst hv; subst he
            refine ⟨by rw [hfb]; rfl, ?_⟩
            intro w hw
            rw [hfb] at hw
            injection hw with hw1 hw2
    | done v e => rw [step_done hg]; exact ⟨h1, h2, h3, h4, h5⟩

theorem inv_run {V : Type} (fb : FnBeh V) (zero : V) (N : Nat) (σ : List Nat) :
    Inv fb (run fb zero N σ) := by
  suffices h : ∀ (σ : List Nat) (s : SFState V), Inv fb s → Inv fb (σ.foldl (step fb zero) s) by
    exact h σ (initSF V N) (inv_init fb N)
  intro σ
  induction σ with
  | nil => intro s hs; exact hs
  | cons g rest ih =>
    intro s hs
    exact ih (step fb zero s g) (inv_step fb zero s g hs)

theorem countRunning_eq_zero_of_allDone {V : Type} (s : SFState V) (h : allDone s) :
    countRunning s = 0 := by
  rw [countRunning_eq]
  refine List.countP_eq_zero.mpr ?_
  intro pc hpc
  have := h pc hpc
  cases pc <;> simp_all [isDone, isRunning]

/-! ## Claims C1 and C10 -/

/-- C1 counterexample: the claim says N concurrent callers with equal
fingerprints while f is in progress see exactly one invocation of f and ALL
return the same (value, error) pair.  In the schedule below goroutine 0
executes f — which returns (7, error "e") — and goroutine 1 joins the slot
while f is in progress: one slot, one invocation, yet the executor's caller
returns (0, "e") (`return zero, err`, line 452) while the waiter returns
(7, "e") read from the slot (line 417): the pairs differ. -/
theorem single_flight_unequal_pairs :
    (run (FnBeh.ret (7 : Int) (some (.str "e"))) 0 2 [0, 0, 1, 1, 0, 0, 1]).slots.length
        = 1 ∧
    (run (FnBeh.ret (7 : Int) (some (.str "e"))) 0 2 [0, 0, 1, 1, 0, 0, 1]).fInv = 1 ∧
    allDone (run (FnBeh.ret (7 : Int) (some (.str "e"))) 0 2 [0, 0, 1, 1, 0, 0, 1]) ∧
    (run (FnBeh.ret (7 : Int) (some (.str "e"))) 0 2 [0, 0, 1, 1, 0, 0, 1]).gs =
      [.done 0 (some (.str "e")), .done 7 (some (.str "e"))] ∧
    GPC.done (0 : Int) (some (GoErr.str "e")) ≠ GPC.done (7 : Int) (some (GoErr.str "e")) := by
  decide

/-- C1 (amended): in every interleaving of N goroutines calling with one
common fingerprint, f is invoked exactly once per created coordination slot
(so when all callers arrive while f is in progress — a single slot — and the
schedule runs to completion, f runs exactly once), and every caller observes
the same error; when f succeeds every caller also observes the same value.
When f returns a non-nil error, the executor's own caller receives the zero
value while waiters receive f's returned value (see C10). -/
theorem single_flight_amended :
    ∀ (V : Type) (fb : FnBeh V) (zero : V) (N : Nat) (σ : List Nat),
      ((run fb zero N σ).fInv + countRunning (run fb zero N σ) =
        (run fb zero N σ).slots.length) ∧
      (allDone (run fb zero N σ) →
        (run fb zero N σ).fInv = (run fb zero N σ).slots.length) ∧
      ((run fb zero N σ).slots.length = 1 → allDone (run fb zero N σ) →
        (run fb zero N σ).fInv = 1) ∧
      (∀ pc ∈ (run fb zero N σ).gs, ∀ v e, pc = .done v e →
        e = fbErr fb ∧ ∀ w, fb = .ret w none → v = w) := by
  intro V fb zero N σ
  obtain ⟨h1, h2, h3, h4, h5⟩ := inv_run fb zero N σ
  refine ⟨h1, ?_, ?_, h5⟩
  · intro hd
    have hz := countRunning_eq_zero_of_allDone _ hd
    omega
  · intro hlen hd
    have hz := countRunning_eq_zero_of_allDone _ hd
    omega

/-- Witness for C1 (amended) on a complete 2-goroutine schedule with a
successful f: a single slot is created, f runs exactly once, and both
callers return f's value with no error. -/
theorem single_flight_amended_witness :
    (run (FnBeh.ret (7 : Int) none) 0 2 [0, 0, 1, 1, 0, 0, 1]).fInv = 1 ∧
    ((run (FnBeh.ret (7 : Int) none) 0 2 [0, 0, 1, 1, 0, 0, 1]).fInv +
        countRunning (run (FnBeh.ret (7 : Int) none) 0 2 [0, 0, 1, 1, 0, 0, 1]) =
      (run (FnBeh.ret (7 : Int) none) 0 2 [0, 0, 1, 1, 0, 0, 1]).slots.length) :=
  ⟨(single_flight_amended Int (.ret 7 none) 0 2 [0, 0, 1, 1, 0, 0, 1]).2.2.1
      (by decide) (by decide),
   (single_flight_amended Int (.ret 7 none) 0 2 [0, 0, 1, 1, 0, 0, 1]).1⟩

/-- C10: when f returns (v, err) with err non-nil, the pair written into the
in-flight slot — which waiters return verbatim — carries f's actual value v,
while the executor's own caller receives the zero value of V alongside the
same error; when v is not the zero value the two groups of callers therefore
receive different values. -/
theorem slot_value_vs_executor_zero :
    ∀ (V : Type) (zero v : V) (er : GoErr),
      (run (FnBeh.ret v (some er)) zero 2 [0, 0, 1, 1, 0, 0, 1]).slots =
        [some (v, some er)] ∧
      (run (FnBeh.ret v (some er)) zero 2 [0, 0, 1, 1, 0, 0, 1]).gs =
        [.done zero (some er), .done v (some er)] ∧
      (v ≠ zero → GPC.done zero (some er) ≠ (GPC.done v (some er) : GPC V)) := by
  intro V zero v er
  refine ⟨?_, ?_, ?_⟩
  · simp [run, step, initSF, List.foldl]
  · simp [run, step, initSF, List.foldl]
  · intro hv heq
    injection heq with h1 h2
    exact hv h1.symm

/-- Witness for C10: with f returning (7, error "x") over Int, the slot
holds (7, "x"), the executor's caller gets (0, "x"), the waiter gets
(7, "x"), and the two results differ. -/
theorem slot_value_vs_executor_zero_witness :
    (run (FnBeh.ret (7 : Int) (some (.str "x"))) 0 2 [0, 0, 1, 1, 0, 0, 1]).slots =
      [some (7, some (.str "x"))] ∧
    (run (FnBeh.ret (7 : Int) (some (.str "x"))) 0 2 [0, 0, 1, 1, 0, 0, 1]).gs =
      [.done 0 (some (.str "x")), .done 7 (some (.str "x"))] ∧
    GPC.done (0 : Int) (some (GoErr.str "x")) ≠ GPC.done (7 : Int) (some (GoErr.str "x")) :=
  ⟨(slot_value_vs_executor_zero Int 0 7 (.str "x")).1,
   (slot_value_vs_executor_zero Int 0 7 (.str "x")).2.1,
   (slot_value_vs_executor_zero Int 0 7 (.str "x")).2.2 (by decide)⟩

end Flight

end Fcache
